import Mathlib

/-!
Verification of the template-switch error-free inners crate.

This file is a shallow embedding of src/lib.rs: the construction
MatchTable::new over a pair of DNA sequences and the four point accessors
of the resulting match table, together with theorems about them.

Genome sequences are modelled as lists over the four-letter DNA alphabet;
since every symbol renders to exactly one ASCII byte, byte offsets and
character offsets coincide and string equality is list equality.
The bitvec BitVec values are modelled as lists of booleans addressed by
the same flat indices the code computes.  Every operation that can panic
in the Rust code (the assert on minimum_length, the unchecked usize
subtraction of the kmer counts, string slicing, BitVec::set) is modelled
as an Except error so that the presence or absence of failures is a
provable statement.  MatchTable.new computes the bit-matrix sizes in
unbounded arithmetic; MatchTable.newOnWord additionally models the usize
multiplications sizing the four bit matrices on a target whose usize is
w bits wide, which overflow for sufficiently long inputs even when the
construction precondition holds.
-/

/-- The DNA alphabet used by the crate (compact_genome DnaAlphabet). -/
inductive DnaChar
  | A
  | C
  | G
  | T
deriving DecidableEq, Repr

/-- Alphabet complement (A-T, C-G) of compact_genome's DnaAlphabet. -/
def DnaChar.complement : DnaChar → DnaChar
  | .A => .T
  | .T => .A
  | .C => .G
  | .G => .C

/-- Model of reverse_complement_iter collected into a sequence: the symbols
in reverse order, each replaced by its complement. -/
def reverseComplement (s : List DnaChar) : List DnaChar :=
  s.reverse.map DnaChar.complement

/-- Model of suffix SuffixTable positions: all starting offsets p in the
text at which the pattern occurs as an exact substring.  The crate returns
them as u32 byte offsets which the builder converts back to usize; with
one byte per symbol these are exactly the character offsets. -/
def positions (text pat : List DnaChar) : List Nat :=
  (List.range (text.length + 1)).filter
    (fun p => decide ((text.drop p).take pat.length = pat))

/-- Outcomes by which MatchTable::new can fail to return a table.
assertViolation models the assert on minimum_length being positive;
usizeUnderflow models the unchecked usize subtraction in the kmer-count
computation (a panic in debug builds, silent wraparound in release
builds); usizeMulOverflow models the usize multiplications sizing the
four bit matrices, which overflow for long enough inputs (a multiply
overflow panic in debug builds, silent wraparound in release builds);
sliceOutOfRange and bitIndexOutOfRange model the panics of string
slicing and of BitVec set.  explicitPreconditionError is the recoverable
precondition report demanded by the specification; the code never
produces it. -/
inductive BuildError
  | assertViolation
  | usizeUnderflow
  | usizeMulOverflow
  | explicitPreconditionError
  | sliceOutOfRange
  | bitIndexOutOfRange
deriving DecidableEq, Repr

/-- Unsigned (usize) subtraction: defined only when no underflow occurs,
as in the expression length - minimum_length of MatchTable::new. -/
def usizeSub (a b : Nat) : Except BuildError Nat :=
  if b ≤ a then Except.ok (a - b) else Except.error BuildError.usizeUnderflow

/-- The kmer slice rc[offsets[j] .. offsets[j + L]] of the builder loops:
the character offset table is the identity for one-byte symbols, and the
slice panics when the end offset exceeds the string length. -/
def substringKmer (s : List DnaChar) (j L : Nat) : Except BuildError (List DnaChar) :=
  if j + L ≤ s.length then Except.ok ((s.drop j).take L)
  else Except.error BuildError.sliceOutOfRange

/-- BitVec set of bit i to true, which panics when i is out of range. -/
def bvSet (bits : List Bool) (i : Nat) : Except BuildError (List Bool) :=
  if i < bits.length then Except.ok (bits.set i true)
  else Except.error BuildError.bitIndexOutOfRange

/-- The match table of src/lib.rs: four flat boolean relations plus the
two kmer counts. -/
structure MatchTable where
  reference_reference : List Bool
  reference_query : List Bool
  query_reference : List Bool
  query_query : List Bool
  reference_kmer_count : Nat
  query_kmer_count : Nat
deriving DecidableEq, Repr

/-- One iteration of a builder loop of MatchTable::new: extract the kmer
of the reverse-complement source at offset j, then mark every occurrence
of it in the reference text (first relation of the state) and in the
query text (second relation), at flat bit address p * stride + j. -/
def matchStep (reference query rc_source : List DnaChar) (minimum_length stride : Nat)
    (st : List Bool × List Bool) (j : Nat) : Except BuildError (List Bool × List Bool) :=
  (substringKmer rc_source j minimum_length).bind fun kmer =>
  ((positions reference kmer).foldlM (fun bits p => bvSet bits (p * stride + j)) st.1).bind
    fun first_bits =>
  ((positions query kmer).foldlM (fun bits p => bvSet bits (p * stride + j)) st.2).bind
    fun second_bits =>
  Except.ok (first_bits, second_bits)

/-- Model of MatchTable::new (src/lib.rs).  The assert on minimum_length
comes first; then the kmer counts are computed by unchecked usize
subtraction; then the first loop fills the reference-reference and
query-reference relations from the reverse-complemented reference, and
the second loop fills the reference-query and query-query relations from
the reverse-complemented query. -/
def MatchTable.new (reference query : List DnaChar) (minimum_length : Nat) :
    Except BuildError MatchTable :=
  if 0 < minimum_length then
    let reference_rc := reverseComplement reference
    let query_rc := reverseComplement query
    (usizeSub reference.length minimum_length).bind fun reference_sub =>
    (usizeSub query.length minimum_length).bind fun query_sub =>
    let reference_kmer_count := reference_sub + 1
    let query_kmer_count := query_sub + 1
    ((List.range reference_kmer_count).foldlM
        (matchStep reference query reference_rc minimum_length reference_kmer_count)
        (List.replicate (reference_kmer_count * reference_kmer_count) false,
          List.replicate (query_kmer_count * reference_kmer_count) false)).bind fun rr_qr =>
    ((List.range query_kmer_count).foldlM
        (matchStep reference query query_rc minimum_length query_kmer_count)
        (List.replicate (reference_kmer_count * query_kmer_count) false,
          List.replicate (query_kmer_count * query_kmer_count) false)).bind fun rq_qq =>
    Except.ok
      { reference_reference := rr_qr.1
        reference_query := rq_qq.1
        query_reference := rr_qr.2
        query_query := rq_qq.2
        reference_kmer_count := reference_kmer_count
        query_kmer_count := query_kmer_count }
  else Except.error BuildError.assertViolation

/-- A usize product sizing a bit matrix, on a target whose usize is w
bits wide: the multiplication overflows when the mathematical product
reaches 2 ^ w (a multiply overflow panic in debug builds, silent
wraparound in release builds). -/
def usizeMul (w a b : Nat) : Except BuildError Nat :=
  if a * b < 2 ^ w then Except.ok (a * b)
  else Except.error BuildError.usizeMulOverflow

/-- Model of MatchTable::new on a target whose usize is w bits wide
(32 or 64 in practice): identical to MatchTable.new except that the four
bit-matrix sizes are computed by checked usize multiplication, in the
order in which the source allocates the bitvectors.  Once those products
fit in the word, every other value the construction computes (the
lengths, the kmer counts, and the flat bit addresses, which stay below
the checked products) fits in the word as well, so unbounded arithmetic
is exact for the remainder. -/
def MatchTable.newOnWord (w : Nat) (reference query : List DnaChar)
    (minimum_length : Nat) : Except BuildError MatchTable :=
  if 0 < minimum_length then
    let reference_rc := reverseComplement reference
    let query_rc := reverseComplement query
    (usizeSub reference.length minimum_length).bind fun reference_sub =>
    (usizeSub query.length minimum_length).bind fun query_sub =>
    let reference_kmer_count := reference_sub + 1
    let query_kmer_count := query_sub + 1
    (usizeMul w reference_kmer_count reference_kmer_count).bind fun rr_size =>
    (usizeMul w reference_kmer_count query_kmer_count).bind fun rq_size =>
    (usizeMul w query_kmer_count reference_kmer_count).bind fun qr_size =>
    (usizeMul w query_kmer_count query_kmer_count).bind fun qq_size =>
    ((List.range reference_kmer_count).foldlM
        (matchStep reference query reference_rc minimum_length reference_kmer_count)
        (List.replicate rr_size false, List.replicate qr_size false)).bind fun rr_qr =>
    ((List.range query_kmer_count).foldlM
        (matchStep reference query query_rc minimum_length query_kmer_count)
        (List.replicate rq_size false, List.replicate qq_size false)).bind fun rq_qq =>
    Except.ok
      { reference_reference := rr_qr.1
        reference_query := rq_qq.1
        query_reference := rr_qr.2
        query_query := rq_qq.2
        reference_kmer_count := reference_kmer_count
        query_kmer_count := query_kmer_count }
  else Except.error BuildError.assertViolation

/-- Accessor has_reference_reference_match with release semantics: the
debug assertions compile away and the relation is read at the flat
address primary * reference_kmer_count + secondary; none models the
panic of an out-of-range BitVec index. -/
def MatchTable.has_reference_reference_match (t : MatchTable)
    (primary_index secondary_rc_index : Nat) : Option Bool :=
  t.reference_reference[primary_index * t.reference_kmer_count + secondary_rc_index]?

/-- Accessor has_reference_query_match with release semantics. -/
def MatchTable.has_reference_query_match (t : MatchTable)
    (primary_index secondary_rc_index : Nat) : Option Bool :=
  t.reference_query[primary_index * t.query_kmer_count + secondary_rc_index]?

/-- Accessor has_query_reference_match with release semantics. -/
def MatchTable.has_query_reference_match (t : MatchTable)
    (primary_index secondary_rc_index : Nat) : Option Bool :=
  t.query_reference[primary_index * t.reference_kmer_count + secondary_rc_index]?

/-- Accessor has_query_query_match with release semantics. -/
def MatchTable.has_query_query_match (t : MatchTable)
    (primary_index secondary_rc_index : Nat) : Option Bool :=
  t.query_query[primary_index * t.query_kmer_count + secondary_rc_index]?

/-- Failure outcomes of an accessor in a debug build: a failing
debug_assert, or an out-of-range BitVec index. -/
inductive AccessError
  | debugAssertionFailed
  | bitIndexOutOfBounds
deriving DecidableEq, Repr

/-- has_reference_reference_match with debug assertions active: both
index bounds are asserted before the bit is read. -/
def MatchTable.has_reference_reference_match_debug (t : MatchTable)
    (primary_index secondary_rc_index : Nat) : Except AccessError Bool :=
  if primary_index < t.reference_kmer_count then
    if secondary_rc_index < t.reference_kmer_count then
      match t.reference_reference[primary_index * t.reference_kmer_count +
          secondary_rc_index]? with
      | some b => Except.ok b
      | none => Except.error AccessError.bitIndexOutOfBounds
    else Except.error AccessError.debugAssertionFailed
  else Except.error AccessError.debugAssertionFailed

/-- has_reference_query_match with debug assertions active. -/
def MatchTable.has_reference_query_match_debug (t : MatchTable)
    (primary_index secondary_rc_index : Nat) : Except AccessError Bool :=
  if primary_index < t.reference_kmer_count then
    if secondary_rc_index < t.query_kmer_count then
      match t.reference_query[primary_index * t.query_kmer_count +
          secondary_rc_index]? with
      | some b => Except.ok b
      | none => Except.error AccessError.bitIndexOutOfBounds
    else Except.error AccessError.debugAssertionFailed
  else Except.error AccessError.debugAssertionFailed

/-- has_query_reference_match with debug assertions active. -/
def MatchTable.has_query_reference_match_debug (t : MatchTable)
    (primary_index secondary_rc_index : Nat) : Except AccessError Bool :=
  if primary_index < t.query_kmer_count then
    if secondary_rc_index < t.reference_kmer_count then
      match t.query_reference[primary_index * t.reference_kmer_count +
          secondary_rc_index]? with
      | some b => Except.ok b
      | none => Except.error AccessError.bitIndexOutOfBounds
    else Except.error AccessError.debugAssertionFailed
  else Except.error AccessError.debugAssertionFailed

/-- has_query_query_match with debug assertions active. -/
def MatchTable.has_query_query_match_debug (t : MatchTable)
    (primary_index secondary_rc_index : Nat) : Except AccessError Bool :=
  if primary_index < t.query_kmer_count then
    if secondary_rc_index < t.query_kmer_count then
      match t.query_query[primary_index * t.query_kmer_count +
          secondary_rc_index]? with
      | some b => Except.ok b
      | none => Except.error AccessError.bitIndexOutOfBounds
    else Except.error AccessError.debugAssertionFailed
  else Except.error AccessError.debugAssertionFailed

/-- Set every listed bit index to true, in order (the successful effect of
a sequence of BitVec set calls). -/
def setAll (bits : List Bool) (idxs : List Nat) : List Bool :=
  idxs.foldl (fun b i => b.set i true) bits

/-- Closed form of one relation filled by a builder loop: for each offset
j below the column count, every occurrence in the text of the kmer of the
reverse-complement source at j marks flat bit p * stride + j. -/
def relationBits (text rc_source : List DnaChar) (L stride cols : Nat)
    (bits : List Bool) : List Bool :=
  (List.range cols).foldl
    (fun b j =>
      setAll b ((positions text ((rc_source.drop j).take L)).map (fun p => p * stride + j)))
    bits

/-- The table MatchTable::new returns on inputs satisfying the
precondition, in closed form. -/
def MatchTable.build (reference query : List DnaChar) (minimum_length : Nat) : MatchTable :=
  let rc := reference.length - minimum_length + 1
  let qc := query.length - minimum_length + 1
  { reference_reference :=
      relationBits reference (reverseComplement reference) minimum_length rc rc
        (List.replicate (rc * rc) false)
    reference_query :=
      relationBits reference (reverseComplement query) minimum_length qc qc
        (List.replicate (rc * qc) false)
    query_reference :=
      relationBits query (reverseComplement reference) minimum_length rc rc
        (List.replicate (qc * rc) false)
    query_query :=
      relationBits query (reverseComplement query) minimum_length qc qc
        (List.replicate (qc * qc) false)
    reference_kmer_count := rc
    query_kmer_count := qc }

/-- The construction succeeds and the resulting table satisfies P. -/
def buildsTableSuchThat (reference query : List DnaChar) (minimum_length : Nat)
    (P : MatchTable → Prop) : Prop :=
  match MatchTable.new reference query minimum_length with
  | Except.ok t => P t
  | Except.error _ => False

instance buildsTableSuchThat.instDecidable (reference query : List DnaChar)
    (minimum_length : Nat) (P : MatchTable → Prop) [DecidablePred P] :
    Decidable (buildsTableSuchThat reference query minimum_length P) :=
  match h : MatchTable.new reference query minimum_length with
  | Except.ok t => decidable_of_iff (P t) (by simp [buildsTableSuchThat, h])
  | Except.error e => isFalse (by simp [buildsTableSuchThat, h])

theorem exceptBind_ok {α β : Type} (x : α) (f : α → Except BuildError β) :
    (Except.ok x).bind f = f x := rfl

theorem exceptSeq_ok {α β : Type} (x : α) (f : α → Except BuildError β) :
    (Except.ok x >>= f) = f x := rfl

theorem reverseComplement_length (s : List DnaChar) :
    (reverseComplement s).length = s.length := by
  simp [reverseComplement]

theorem mem_positions (text pat : List DnaChar) (p : Nat) :
    p ∈ positions text pat ↔
      p ≤ text.length ∧ (text.drop p).take pat.length = pat := by
  simp [positions, List.mem_filter, List.mem_range, Nat.lt_succ_iff]

theorem mem_positions_le (text pat : List DnaChar) (p : Nat)
    (h : p ∈ positions text pat) : p + pat.length ≤ text.length := by
  rcases (mem_positions text pat p).mp h with ⟨hp, he⟩
  have hl := congrArg List.length he
  rw [List.length_take, List.length_drop] at hl
  rcases min_eq_left_iff.mp hl with h2
  omega

theorem kmer_length (s : List DnaChar) (j L : Nat) (h : j + L ≤ s.length) :
    ((s.drop j).take L).length = L := by
  rw [List.length_take, List.length_drop]
  exact min_eq_left (by omega)

theorem setAll_nil (bits : List Bool) : setAll bits [] = bits := rfl

theorem setAll_cons (bits : List Bool) (i : Nat) (is : List Nat) :
    setAll bits (i :: is) = setAll (bits.set i true) is := rfl

theorem setAll_length (bits : List Bool) (idxs : List Nat) :
    (setAll bits idxs).length = bits.length := by
  induction idxs generalizing bits with
  | nil => rfl
  | cons i is ih => rw [setAll_cons, ih, List.length_set]

theorem setAll_getElem (bits : List Bool) (idxs : List Nat) (k : Nat) :
    (setAll bits idxs)[k]? = some true ↔
      (k ∈ idxs ∧ k < bits.length) ∨ bits[k]? = some true := by
  induction idxs generalizing bits with
  | nil => simp [setAll_nil]
  | cons i is ih =>
    rw [setAll_cons, ih, List.length_set]
    simp only [List.mem_cons, List.getElem?_set]
    by_cases hik : i = k
    · subst hik
      by_cases hk : i < bits.length
      · simp [hk]
      · have hnone : bits[i]? = none := List.getElem?_eq_none (by omega)
        simp [hk, hnone]
    · simp only [if_neg hik]
      constructor
      · rintro (⟨hm, hl⟩ | he)
        · exact Or.inl ⟨Or.inr hm, hl⟩
        · exact Or.inr he
      · rintro (⟨hm, hl⟩ | he)
        · rcases hm with rfl | hm
          · exact absurd rfl hik
          · exact Or.inl ⟨hm, hl⟩
        · exact Or.inr he

theorem relationBits_zero (text rc_source : List DnaChar) (L stride : Nat)
    (bits : List Bool) : relationBits text rc_source L stride 0 bits = bits := rfl

theorem relationBits_succ (text rc_source : List DnaChar) (L stride c : Nat)
    (bits : List Bool) :
    relationBits text rc_source L stride (c + 1) bits =
      setAll (relationBits text rc_source L stride c bits)
        ((positions text ((rc_source.drop c).take L)).map (fun p => p * stride + c)) := by
  unfold relationBits
  rw [List.range_succ, List.foldl_append]
  rfl

theorem relationBits_length (text rc_source : List DnaChar) (L stride c : Nat)
    (bits : List Bool) :
    (relationBits text rc_source L stride c bits).length = bits.length := by
  induction c with
  | zero => rfl
  | succ c ih => rw [relationBits_succ, setAll_length, ih]

theorem relationBits_getElem (text rc_source : List DnaChar) (L stride c : Nat)
    (bits : List Bool) (k : Nat) :
    (relationBits text rc_source L stride c bits)[k]? = some true ↔
      (∃ j, j < c ∧ k < bits.length ∧
        ∃ p ∈ positions text ((rc_source.drop j).take L), p * stride + j = k)
      ∨ bits[k]? = some true := by
  induction c with
  | zero => simp [relationBits_zero]
  | succ c ih =>
    rw [relationBits_succ, setAll_getElem, relationBits_length, ih]
    constructor
    · rintro (⟨hmem, hk⟩ | (⟨j, hj, hk, p, hp, he⟩ | hb))
      · rcases List.mem_map.mp hmem with ⟨p, hp, he⟩
        exact Or.inl ⟨c, Nat.lt_succ_self c, hk, p, hp, he⟩
      · exact Or.inl ⟨j, Nat.lt_succ_of_lt hj, hk, p, hp, he⟩
      · exact Or.inr hb
    · rintro (⟨j, hj, hk, p, hp, he⟩ | hb)
      · rcases Nat.lt_succ_iff_lt_or_eq.mp hj with hj | rfl
        · exact Or.inr (Or.inl ⟨j, hj, hk, p, hp, he⟩)
        · exact Or.inl ⟨List.mem_map.mpr ⟨p, hp, he⟩, hk⟩
      · exact Or.inr (Or.inr hb)

theorem foldlM_bvSet_eq (addr : Nat → Nat) (ps : List Nat) (bits : List Bool)
    (h : ∀ p ∈ ps, addr p < bits.length) :
    ps.foldlM (fun b p => bvSet b (addr p)) bits =
      Except.ok (setAll bits (ps.map addr)) := by
  induction ps generalizing bits with
  | nil => rfl
  | cons p ps ih =>
    have hp : addr p < bits.length := h p (List.mem_cons_self p ps)
    have hb : bvSet bits (addr p) = Except.ok (bits.set (addr p) true) := by
      rw [bvSet, if_pos hp]
    rw [List.foldlM_cons, hb, exceptSeq_ok, List.map_cons, setAll_cons]
    exact ih (bits.set (addr p) true)
      (fun q hq => by rw [List.length_set]; exact h q (List.mem_cons_of_mem p hq))

theorem flat_lt (p s a b : Nat) (hp : p < a) (hs : s < b) : p * b + s < a * b :=
  calc p * b + s < p * b + b := by omega
  _ = (p + 1) * b := by ring
  _ ≤ a * b := Nat.mul_le_mul_right b hp

theorem flat_unique (p q s j b : Nat) (hs : s < b) (hj : j < b)
    (h : p * b + s = q * b + j) : p = q ∧ s = j := by
  have h1 : s = (p * b + s) % b := by
    rw [Nat.mul_comm, Nat.mul_add_mod, Nat.mod_eq_of_lt hs]
  have h2 : j = (q * b + j) % b := by
    rw [Nat.mul_comm, Nat.mul_add_mod, Nat.mod_eq_of_lt hj]
  have hsj : s = j := by rw [h1, h, ← h2]
  subst hsj
  have hmul : p * b = q * b := by omega
  have hb : 0 < b := by omega
  exact ⟨Nat.eq_of_mul_eq_mul_right hb hmul, rfl⟩

theorem positions_flat_lt (text rc_source : List DnaChar) (L j stride rows : Nat)
    (hrows : text.length - L + 1 ≤ rows) (hj : j < stride)
    (hjL : j + L ≤ rc_source.length) (p : Nat)
    (hp : p ∈ positions text ((rc_source.drop j).take L)) :
    p * stride + j < rows * stride := by
  have hlen := mem_positions_le _ _ _ hp
  rw [kmer_length rc_source j L hjL] at hlen
  exact flat_lt p j rows stride (by omega) hj

theorem loopPair_eq (textA textB rcS : List DnaChar) (L stride c : Nat)
    (bA bB : List Bool)
    (hk : ∀ j, j < c → j + L ≤ rcS.length)
    (hA : ∀ j, j < c → ∀ p ∈ positions textA ((rcS.drop j).take L),
      p * stride + j < bA.length)
    (hB : ∀ j, j < c → ∀ p ∈ positions textB ((rcS.drop j).take L),
      p * stride + j < bB.length) :
    (List.range c).foldlM (matchStep textA textB rcS L stride) (bA, bB) =
      Except.ok (relationBits textA rcS L stride c bA,
        relationBits textB rcS L stride c bB) := by
  induction c with
  | zero => rfl
  | succ c ih =>
    rw [List.range_succ, List.foldlM_append]
    rw [ih (fun j hj => hk j (Nat.lt_succ_of_lt hj))
      (fun j hj => hA j (Nat.lt_succ_of_lt hj))
      (fun j hj => hB j (Nat.lt_succ_of_lt hj))]
    rw [exceptSeq_ok, List.foldlM_cons]
    have hkm : substringKmer rcS c L = Except.ok ((rcS.drop c).take L) := by
      rw [substringKmer, if_pos (hk c (Nat.lt_succ_self c))]
    have hfirst :
        (positions textA ((rcS.drop c).take L)).foldlM
            (fun bits p => bvSet bits (p * stride + c))
            (relationBits textA rcS L stride c bA) =
          Except.ok (setAll (relationBits textA rcS L stride c bA)
            ((positions textA ((rcS.drop c).take L)).map (fun p => p * stride + c))) :=
      foldlM_bvSet_eq (fun p => p * stride + c) _ _
        (fun p hp => by
          rw [relationBits_length]
          exact hA c (Nat.lt_succ_self c) p hp)
    have hsecond :
        (positions textB ((rcS.drop c).take L)).foldlM
            (fun bits p => bvSet bits (p * stride + c))
            (relationBits textB rcS L stride c bB) =
          Except.ok (setAll (relationBits textB rcS L stride c bB)
            ((positions textB ((rcS.drop c).take L)).map (fun p => p * stride + c))) :=
      foldlM_bvSet_eq (fun p => p * stride + c) _ _
        (fun p hp => by
          rw [relationBits_length]
          exact hB c (Nat.lt_succ_self c) p hp)
    simp only [matchStep, hkm, exceptBind_ok]
    rw [hfirst, exceptBind_ok, hsecond, exceptBind_ok, exceptSeq_ok,
      List.foldlM_nil, relationBits_succ, relationBits_succ]
    rfl

theorem new_eq_build (R Q : List DnaChar) (L : Nat)
    (h1 : 0 < L) (hR : L ≤ R.length) (hQ : L ≤ Q.length) :
    MatchTable.new R Q L = Except.ok (MatchTable.build R Q L) := by
  have hsubR : usizeSub R.length L = Except.ok (R.length - L) := by
    rw [usizeSub, if_pos hR]
  have hsubQ : usizeSub Q.length L = Except.ok (Q.length - L) := by
    rw [usizeSub, if_pos hQ]
  have hloop1 := loopPair_eq R Q (reverseComplement R) L (R.length - L + 1)
    (R.length - L + 1)
    (List.replicate ((R.length - L + 1) * (R.length - L + 1)) false)
    (List.replicate ((Q.length - L + 1) * (R.length - L + 1)) false)
    (fun j hj => by rw [reverseComplement_length]; omega)
    (fun j hj p hp => by
      rw [List.length_replicate]
      exact positions_flat_lt R (reverseComplement R) L j (R.length - L + 1)
        (R.length - L + 1) (le_refl _) hj
        (by rw [reverseComplement_length]; omega) p hp)
    (fun j hj p hp => by
      rw [List.length_replicate]
      exact positions_flat_lt Q (reverseComplement R) L j (R.length - L + 1)
        (Q.length - L + 1) (le_refl _) hj
        (by rw [reverseComplement_length]; omega) p hp)
  have hloop2 := loopPair_eq R Q (reverseComplement Q) L (Q.length - L + 1)
    (Q.length - L + 1)
    (List.replicate ((R.length - L + 1) * (Q.length - L + 1)) false)
    (List.replicate ((Q.length - L + 1) * (Q.length - L + 1)) false)
    (fun j hj => by rw [reverseComplement_length]; omega)
    (fun j hj p hp => by
      rw [List.length_replicate]
      exact positions_flat_lt R (reverseComplement Q) L j (Q.length - L + 1)
        (R.length - L + 1) (le_refl _) hj
        (by rw [reverseComplement_length]; omega) p hp)
    (fun j hj p hp => by
      rw [List.length_replicate]
      exact positions_flat_lt Q (reverseComplement Q) L j (Q.length - L + 1)
        (Q.length - L + 1) (le_refl _) hj
        (by rw [reverseComplement_length]; omega) p hp)
  rw [MatchTable.new, if_pos h1]
  simp only [hsubR, hsubQ, exceptBind_ok]
  rw [hloop1, exceptBind_ok, hloop2, exceptBind_ok]
  rfl

theorem relationBits_flat_iff (text rcS : List DnaChar) (L stride rows p s : Nat)
    (hL : 0 < L) (hT : L ≤ text.length) (hS : L ≤ rcS.length)
    (hrows : rows = text.length - L + 1) (hstride : stride = rcS.length - L + 1)
    (hp : p < rows) (hs : s < stride) :
    (relationBits text rcS L stride stride
        (List.replicate (rows * stride) false))[p * stride + s]? = some true ↔
      (text.drop p).take L = (rcS.drop s).take L := by
  rw [relationBits_getElem]
  constructor
  · rintro (⟨j, hj, hk, q, hq, he⟩ | hrep)
    · rcases flat_unique q p j s stride hj hs he with ⟨rfl, rfl⟩
      rcases (mem_positions text _ q).mp hq with ⟨hq1, hq2⟩
      rw [kmer_length rcS j L (by omega)] at hq2
      exact hq2
    · rw [List.getElem?_replicate] at hrep
      by_cases hlt : p * stride + s < rows * stride
      · rw [if_pos hlt] at hrep
        exact absurd hrep (by simp)
      · rw [if_neg hlt] at hrep
        exact absurd hrep (by simp)
  · intro he
    refine Or.inl ⟨s, hs, ?_, p, ?_, rfl⟩
    · rw [List.length_replicate]
      exact flat_lt p s rows stride hp hs
    · rw [mem_positions]
      refine ⟨by omega, ?_⟩
      rw [kmer_length rcS s L (by omega)]
      exact he

theorem build_reference_kmer_count (R Q : List DnaChar) (L : Nat) :
    (MatchTable.build R Q L).reference_kmer_count = R.length - L + 1 := rfl

theorem build_query_kmer_count (R Q : List DnaChar) (L : Nat) :
    (MatchTable.build R Q L).query_kmer_count = Q.length - L + 1 := rfl

theorem build_lengths (R Q : List DnaChar) (L : Nat) :
    (MatchTable.build R Q L).reference_reference.length =
        (R.length - L + 1) * (R.length - L + 1) ∧
      (MatchTable.build R Q L).reference_query.length =
        (R.length - L + 1) * (Q.length - L + 1) ∧
      (MatchTable.build R Q L).query_reference.length =
        (Q.length - L + 1) * (R.length - L + 1) ∧
      (MatchTable.build R Q L).query_query.length =
        (Q.length - L + 1) * (Q.length - L + 1) := by
  refine ⟨?_, ?_, ?_, ?_⟩ <;>
    simp [MatchTable.build, relationBits_length, List.length_replicate]

theorem build_rr_iff (R Q : List DnaChar) (L p s : Nat) (hL : 0 < L)
    (hR : L ≤ R.length) (hQ : L ≤ Q.length)
    (hp : p < R.length - L + 1) (hs : s < R.length - L + 1) :
    (MatchTable.build R Q L).has_reference_reference_match p s = some true ↔
      (R.drop p).take L = ((reverseComplement R).drop s).take L :=
  relationBits_flat_iff R (reverseComplement R) L (R.length - L + 1)
    (R.length - L + 1) p s hL hR (by rw [reverseComplement_length]; exact hR)
    rfl (by rw [reverseComplement_length]) hp hs

theorem build_rq_iff (R Q : List DnaChar) (L p s : Nat) (hL : 0 < L)
    (hR : L ≤ R.length) (hQ : L ≤ Q.length)
    (hp : p < R.length - L + 1) (hs : s < Q.length - L + 1) :
    (MatchTable.build R Q L).has_reference_query_match p s = some true ↔
      (R.drop p).take L = ((reverseComplement Q).drop s).take L :=
  relationBits_flat_iff R (reverseComplement Q) L (Q.length - L + 1)
    (R.length - L + 1) p s hL hR (by rw [reverseComplement_length]; exact hQ)
    rfl (by rw [reverseComplement_length]) hp hs

theorem build_qr_iff (R Q : List DnaChar) (L p s : Nat) (hL : 0 < L)
    (hR : L ≤ R.length) (hQ : L ≤ Q.length)
    (hp : p < Q.length - L + 1) (hs : s < R.length - L + 1) :
    (MatchTable.build R Q L).has_query_reference_match p s = some true ↔
      (Q.drop p).take L = ((reverseComplement R).drop s).take L :=
  relationBits_flat_iff Q (reverseComplement R) L (R.length - L + 1)
    (Q.length - L + 1) p s hL hQ (by rw [reverseComplement_length]; exact hR)
    rfl (by rw [reverseComplement_length]) hp hs

theorem build_qq_iff (R Q : List DnaChar) (L p s : Nat) (hL : 0 < L)
    (hR : L ≤ R.length) (hQ : L ≤ Q.length)
    (hp : p < Q.length - L + 1) (hs : s < Q.length - L + 1) :
    (MatchTable.build R Q L).has_query_query_match p s = some true ↔
      (Q.drop p).take L = ((reverseComplement Q).drop s).take L :=
  relationBits_flat_iff Q (reverseComplement Q) L (Q.length - L + 1)
    (Q.length - L + 1) p s hL hQ (by rw [reverseComplement_length]; exact hQ)
    rfl (by rw [reverseComplement_length]) hp hs

/-- Claim C1: for all sequences R, Q and every minimum length L with
1 <= L <= min of the two lengths, each of the four accessors of the table
built by MatchTable::new returns true at in-range indices (p, s) exactly
when the length-L substring of the primary source's forward sequence
starting at offset p equals the length-L substring of the reverse
complement of the secondary source starting at offset s. -/
theorem c1_accessor_iff_kmer_eq (R Q : List DnaChar) (L p s : Nat) (t : MatchTable)
    (h1 : 1 ≤ L) (hR : L ≤ R.length) (hQ : L ≤ Q.length)
    (ht : MatchTable.new R Q L = Except.ok t) :
    (p < t.reference_kmer_count → s < t.reference_kmer_count →
      (t.has_reference_reference_match p s = some true ↔
        (R.drop p).take L = ((reverseComplement R).drop s).take L)) ∧
    (p < t.reference_kmer_count → s < t.query_kmer_count →
      (t.has_reference_query_match p s = some true ↔
        (R.drop p).take L = ((reverseComplement Q).drop s).take L)) ∧
    (p < t.query_kmer_count → s < t.reference_kmer_count →
      (t.has_query_reference_match p s = some true ↔
        (Q.drop p).take L = ((reverseComplement R).drop s).take L)) ∧
    (p < t.query_kmer_count → s < t.query_kmer_count →
      (t.has_query_query_match p s = some true ↔
        (Q.drop p).take L = ((reverseComplement Q).drop s).take L)) := by
  have hbuild := new_eq_build R Q L h1 hR hQ
  rw [ht] at hbuild
  injection hbuild with htb
  subst htb
  exact ⟨fun hp hs => build_rr_iff R Q L p s h1 hR hQ hp hs,
    fun hp hs => build_rq_iff R Q L p s h1 hR hQ hp hs,
    fun hp hs => build_qr_iff R Q L p s h1 hR hQ hp hs,
    fun hp hs => build_qq_iff R Q L p s h1 hR hQ hp hs⟩

/-- A tiny concrete input used by several witnesses: reference AC and
query AG with minimum length 2 build a table whose four relations each
hold one bit, all false. -/
def smallRef : List DnaChar := [DnaChar.A, DnaChar.C]

/-- The query of the tiny concrete input. -/
def smallQry : List DnaChar := [DnaChar.A, DnaChar.G]

/-- The table MatchTable::new returns on the tiny concrete input. -/
def smallTable : MatchTable := ⟨[false], [false], [false], [false], 1, 1⟩

/-- Witness for c1_accessor_iff_kmer_eq at the tiny concrete input. -/
theorem c1_accessor_iff_kmer_eq_witness :
    (1 ≤ 2 ∧ 2 ≤ smallRef.length ∧ 2 ≤ smallQry.length ∧
      MatchTable.new smallRef smallQry 2 = Except.ok smallTable) ∧
    ((0 < smallTable.reference_kmer_count → 0 < smallTable.reference_kmer_count →
      (smallTable.has_reference_reference_match 0 0 = some true ↔
        (smallRef.drop 0).take 2 = ((reverseComplement smallRef).drop 0).take 2)) ∧
    (0 < smallTable.reference_kmer_count → 0 < smallTable.query_kmer_count →
      (smallTable.has_reference_query_match 0 0 = some true ↔
        (smallRef.drop 0).take 2 = ((reverseComplement smallQry).drop 0).take 2)) ∧
    (0 < smallTable.query_kmer_count → 0 < smallTable.reference_kmer_count →
      (smallTable.has_query_reference_match 0 0 = some true ↔
        (smallQry.drop 0).take 2 = ((reverseComplement smallRef).drop 0).take 2)) ∧
    (0 < smallTable.query_kmer_count → 0 < smallTable.query_kmer_count →
      (smallTable.has_query_query_match 0 0 = some true ↔
        (smallQry.drop 0).take 2 = ((reverseComplement smallQry).drop 0).take 2))) :=
  ⟨⟨by decide, by decide, by decide, rfl⟩,
    c1_accessor_iff_kmer_eq smallRef smallQry 2 0 0 smallTable
      (by decide) (by decide) (by decide) rfl⟩

/-- Counterexample to claim C2: with reference A, query A and minimum
length 2 (which exceeds both lengths), construction does not fail with
the explicit recoverable precondition error the specification demands;
it fails by unsigned-subtraction underflow. -/
theorem c2_no_explicit_error_counterexample :
    MatchTable.new [DnaChar.A] [DnaChar.A] 2 =
        Except.error BuildError.usizeUnderflow ∧
      MatchTable.new [DnaChar.A] [DnaChar.A] 2 ≠
        Except.error BuildError.explicitPreconditionError :=
  ⟨rfl, fun h => by
    have h2 : Except.error (α := MatchTable) BuildError.usizeUnderflow =
        Except.error BuildError.explicitPreconditionError := by
      rw [← h]
      rfl
    injection h2 with h3
    exact absurd h3 (by decide)⟩

/-- Claim C2 as amended: for every minimum length exceeding the length
of the reference or of the query, MatchTable::new fails by underflow of
the unsigned kmer-count subtraction (a panic in debug builds, silent
wraparound in release builds), not by a recoverable reported
precondition violation. -/
theorem c2_amended_underflow (R Q : List DnaChar) (L : Nat)
    (h : R.length < L ∨ Q.length < L) :
    MatchTable.new R Q L = Except.error BuildError.usizeUnderflow := by
  have h1 : 0 < L := by omega
  rw [MatchTable.new, if_pos h1]
  rcases h with h | h
  · have hsub : usizeSub R.length L = Except.error BuildError.usizeUnderflow := by
      rw [usizeSub, if_neg (by omega)]
    rw [hsub]
    rfl
  · by_cases hR : L ≤ R.length
    · have hsubR : usizeSub R.length L = Except.ok (R.length - L) := by
        rw [usizeSub, if_pos hR]
      have hsubQ : usizeSub Q.length L = Except.error BuildError.usizeUnderflow := by
        rw [usizeSub, if_neg (by omega)]
      rw [hsubR, exceptBind_ok, hsubQ]
      rfl
    · have hsub : usizeSub R.length L = Except.error BuildError.usizeUnderflow := by
        rw [usizeSub, if_neg hR]
      rw [hsub]
      rfl

/-- Witness for c2_amended_underflow at a concrete input. -/
theorem c2_amended_underflow_witness :
    ([DnaChar.A].length < 2 ∨ [DnaChar.A].length < 2) ∧
      MatchTable.new [DnaChar.A] [DnaChar.A] 2 =
        Except.error BuildError.usizeUnderflow :=
  ⟨by decide, c2_amended_underflow [DnaChar.A] [DnaChar.A] 2 (by decide)⟩

/-- Claim C3: construction with minimum length zero always fails (the
assert at the top of MatchTable::new), for every pair of sequences. -/
theorem c3_zero_minimum_length_fails (R Q : List DnaChar) :
    MatchTable.new R Q 0 = Except.error BuildError.assertViolation := rfl

/-- Claim C4: under the precondition 1 <= L <= min of the lengths,
MatchTable::new returns a table with reference kmer count equal to the
reference length minus L plus one and query kmer count equal to the
query length minus L plus one; when a length equals L the corresponding
count is one, so index zero is the only valid index in that dimension. -/
theorem c4_kmer_counts (R Q : List DnaChar) (L : Nat)
    (h1 : 1 ≤ L) (hR : L ≤ R.length) (hQ : L ≤ Q.length) :
    ∃ t, MatchTable.new R Q L = Except.ok t ∧
      t.reference_kmer_count = R.length - L + 1 ∧
      t.query_kmer_count = Q.length - L + 1 ∧
      (R.length = L → t.reference_kmer_count = 1) ∧
      (Q.length = L → t.query_kmer_count = 1) := by
  refine ⟨MatchTable.build R Q L, new_eq_build R Q L h1 hR hQ, rfl, rfl, ?_, ?_⟩
  · intro hRL
    rw [build_reference_kmer_count, hRL]
    omega
  · intro hQL
    rw [build_query_kmer_count, hQL]
    omega

/-- Witness for c4_kmer_counts at a concrete input. -/
theorem c4_kmer_counts_witness :
    (1 ≤ 2 ∧ 2 ≤ smallRef.length ∧ 2 ≤ smallQry.length) ∧
      (∃ t, MatchTable.new smallRef smallQry 2 = Except.ok t ∧
        t.reference_kmer_count = smallRef.length - 2 + 1 ∧
        t.query_kmer_count = smallQry.length - 2 + 1 ∧
        (smallRef.length = 2 → t.reference_kmer_count = 1) ∧
        (smallQry.length = 2 → t.query_kmer_count = 1)) :=
  ⟨⟨by decide, by decide, by decide⟩,
    c4_kmer_counts smallRef smallQry 2 (by decide) (by decide) (by decide)⟩

/-- The reference AGGGGAACCCCAA of the first concrete test scenario. -/
def cRef1 : List DnaChar :=
  [.A, .G, .G, .G, .G, .A, .A, .C, .C, .C, .C, .A, .A]

/-- The query AAAAAAAA of the first concrete test scenario. -/
def cQry1 : List DnaChar :=
  [.A, .A, .A, .A, .A, .A, .A, .A]

/-- Claim C5: on reference AGGGGAACCCCAA, query AAAAAAAA and minimum
length 4, the built table has the reference-reference relation true at
exactly (1, 2) and (7, 8), with every other in-range entry of that
relation and every in-range entry of the three remaining relations
false. -/
theorem c5_concrete_scenario :
    buildsTableSuchThat cRef1 cQry1 4 (fun t =>
      t.reference_kmer_count = 10 ∧ t.query_kmer_count = 5 ∧
      (∀ p, p < 10 → ∀ s, s < 10 →
        t.has_reference_reference_match p s =
          some (decide ((p = 1 ∧ s = 2) ∨ (p = 7 ∧ s = 8)))) ∧
      (∀ p, p < 10 → ∀ s, s < 5 → t.has_reference_query_match p s = some false) ∧
      (∀ p, p < 5 → ∀ s, s < 10 → t.has_query_reference_match p s = some false) ∧
      (∀ p, p < 5 → ∀ s, s < 5 → t.has_query_query_match p s = some false)) := by
  decide

/-- The reference AGGGGAA of the second concrete test scenario. -/
def cRef2 : List DnaChar := [.A, .G, .G, .G, .G, .A, .A]

/-- The query AACCCCA of the second concrete test scenario. -/
def cQry2 : List DnaChar := [.A, .A, .C, .C, .C, .C, .A]

/-- Claim C6: the reference-query and query-reference relations are
independent and not transposes of each other: on reference AGGGGAA,
query AACCCCA with minimum length 4, the reference-query accessor at
(1, 1) differs from the query-reference accessor at (1, 1). -/
theorem c6_not_transposes :
    ∃ (R Q : List DnaChar) (L p s : Nat),
      1 ≤ L ∧ L ≤ R.length ∧ L ≤ Q.length ∧
      buildsTableSuchThat R Q L (fun t =>
        p < t.reference_kmer_count ∧ s < t.query_kmer_count ∧
        t.has_reference_query_match p s ≠ t.has_query_reference_match s p) :=
  ⟨cRef2, cQry2, 4, 1, 1, by decide, by decide, by decide, by decide⟩

/-- Claim C8: for each of the four accessors, an out-of-range primary or
secondary index makes the debug assertion fail, while in-range indices
pass both assertions and the accessor returns the boolean stored in its
relation at the computed flat address. -/
theorem c8_accessor_debug_assertions (R Q : List DnaChar) (L p s : Nat)
    (t : MatchTable) (h1 : 1 ≤ L) (hR : L ≤ R.length) (hQ : L ≤ Q.length)
    (ht : MatchTable.new R Q L = Except.ok t) :
    ((t.reference_kmer_count ≤ p ∨ t.reference_kmer_count ≤ s) →
      t.has_reference_reference_match_debug p s =
        Except.error AccessError.debugAssertionFailed) ∧
    (p < t.reference_kmer_count → s < t.reference_kmer_count →
      ∃ b, t.has_reference_reference_match_debug p s = Except.ok b ∧
        t.reference_reference[p * t.reference_kmer_count + s]? = some b) ∧
    ((t.reference_kmer_count ≤ p ∨ t.query_kmer_count ≤ s) →
      t.has_reference_query_match_debug p s =
        Except.error AccessError.debugAssertionFailed) ∧
    (p < t.reference_kmer_count → s < t.query_kmer_count →
      ∃ b, t.has_reference_query_match_debug p s = Except.ok b ∧
        t.reference_query[p * t.query_kmer_count + s]? = some b) ∧
    ((t.query_kmer_count ≤ p ∨ t.reference_kmer_count ≤ s) →
      t.has_query_reference_match_debug p s =
        Except.error AccessError.debugAssertionFailed) ∧
    (p < t.query_kmer_count → s < t.reference_kmer_count →
      ∃ b, t.has_query_reference_match_debug p s = Except.ok b ∧
        t.query_reference[p * t.reference_kmer_count + s]? = some b) ∧
    ((t.query_kmer_count ≤ p ∨ t.query_kmer_count ≤ s) →
      t.has_query_query_match_debug p s =
        Except.error AccessError.debugAssertionFailed) ∧
    (p < t.query_kmer_count → s < t.query_kmer_count →
      ∃ b, t.has_query_query_match_debug p s = Except.ok b ∧
        t.query_query[p * t.query_kmer_count + s]? = some b) := by
  have hbuild := new_eq_build R Q L h1 hR hQ
  rw [ht] at hbuild
  injection hbuild with htb
  subst htb
  have hrr := (build_lengths R Q L).1
  have hrq := (build_lengths R Q L).2.1
  have hqr := (build_lengths R Q L).2.2.1
  have hqq := (build_lengths R Q L).2.2.2
  refine ⟨?_, ?_, ?_, ?_, ?_, ?_, ?_, ?_⟩
  · intro hout
    rw [MatchTable.has_reference_reference_match_debug]
    rcases Nat.lt_or_ge p (MatchTable.build R Q L).reference_kmer_count with hpc | hpc
    · rw [if_pos hpc, if_neg (by omega)]
    · rw [if_neg (by omega)]
  · intro hp hs
    rw [MatchTable.has_reference_reference_match_debug, if_pos hp, if_pos hs]
    have hlt : p * (MatchTable.build R Q L).reference_kmer_count + s <
        (MatchTable.build R Q L).reference_reference.length := by
      rw [hrr]
      exact flat_lt p s _ _ hp hs
    rw [List.getElem?_eq_getElem hlt]
    exact ⟨_, rfl, rfl⟩
  · intro hout
    rw [MatchTable.has_reference_query_match_debug]
    rcases Nat.lt_or_ge p (MatchTable.build R Q L).reference_kmer_count with hpc | hpc
    · rw [if_pos hpc, if_neg (by omega)]
    · rw [if_neg (by omega)]
  · intro hp hs
    rw [MatchTable.has_reference_query_match_debug, if_pos hp, if_pos hs]
    have hlt : p * (MatchTable.build R Q L).query_kmer_count + s <
        (MatchTable.build R Q L).reference_query.length := by
      rw [hrq]
      exact flat_lt p s _ _ hp hs
    rw [List.getElem?_eq_getElem hlt]
    exact ⟨_, rfl, rfl⟩
  · intro hout
    rw [MatchTable.has_query_reference_match_debug]
    rcases Nat.lt_or_ge p (MatchTable.build R Q L).query_kmer_count with hpc | hpc
    · rw [if_pos hpc, if_neg (by omega)]
    · rw [if_neg (by omega)]
  · intro hp hs
    rw [MatchTable.has_query_reference_match_debug, if_pos hp, if_pos hs]
    have hlt : p * (MatchTable.build R Q L).reference_kmer_count + s <
        (MatchTable.build R Q L).query_reference.length := by
      rw [hqr]
      exact flat_lt p s _ _ hp hs
    rw [List.getElem?_eq_getElem hlt]
    exact ⟨_, rfl, rfl⟩
  · intro hout
    rw [MatchTable.has_query_query_match_debug]
    rcases Nat.lt_or_ge p (MatchTable.build R Q L).query_kmer_count with hpc | hpc
    · rw [if_pos hpc, if_neg (by omega)]
    · rw [if_neg (by omega)]
  · intro hp hs
    rw [MatchTable.has_query_query_match_debug, if_pos hp, if_pos hs]
    have hlt : p * (MatchTable.build R Q L).query_kmer_count + s <
        (MatchTable.build R Q L).query_query.length := by
      rw [hqq]
      exact flat_lt p s _ _ hp hs
    rw [List.getElem?_eq_getElem hlt]
    exact ⟨_, rfl, rfl⟩

/-- Witness for c8_accessor_debug_assertions at the tiny concrete input. -/
theorem c8_accessor_debug_assertions_witness :
    (1 ≤ 2 ∧ 2 ≤ smallRef.length ∧ 2 ≤ smallQry.length ∧
      MatchTable.new smallRef smallQry 2 = Except.ok smallTable) ∧
    (((smallTable.reference_kmer_count ≤ 0 ∨ smallTable.reference_kmer_count ≤ 0) →
      smallTable.has_reference_reference_match_debug 0 0 =
        Except.error AccessError.debugAssertionFailed) ∧
    (0 < smallTable.reference_kmer_count → 0 < smallTable.reference_kmer_count →
      ∃ b, smallTable.has_reference_reference_match_debug 0 0 = Except.ok b ∧
        smallTable.reference_reference[0 * smallTable.reference_kmer_count + 0]? =
          some b) ∧
    ((smallTable.reference_kmer_count ≤ 0 ∨ smallTable.query_kmer_count ≤ 0) →
      smallTable.has_reference_query_match_debug 0 0 =
        Except.error AccessError.debugAssertionFailed) ∧
    (0 < smallTable.reference_kmer_count → 0 < smallTable.query_kmer_count →
      ∃ b, smallTable.has_reference_query_match_debug 0 0 = Except.ok b ∧
        smallTable.reference_query[0 * smallTable.query_kmer_count + 0]? = some b) ∧
    ((smallTable.query_kmer_count ≤ 0 ∨ smallTable.reference_kmer_count ≤ 0) →
      smallTable.has_query_reference_match_debug 0 0 =
        Except.error AccessError.debugAssertionFailed) ∧
    (0 < smallTable.query_kmer_count → 0 < smallTable.reference_kmer_count →
      ∃ b, smallTable.has_query_reference_match_debug 0 0 = Except.ok b ∧
        smallTable.query_reference[0 * smallTable.reference_kmer_count + 0]? =
          some b) ∧
    ((smallTable.query_kmer_count ≤ 0 ∨ smallTable.query_kmer_count ≤ 0) →
      smallTable.has_query_query_match_debug 0 0 =
        Except.error AccessError.debugAssertionFailed) ∧
    (0 < smallTable.query_kmer_count → 0 < smallTable.query_kmer_count →
      ∃ b, smallTable.has_query_query_match_debug 0 0 = Except.ok b ∧
        smallTable.query_query[0 * smallTable.query_kmer_count + 0]? = some b)) :=
  ⟨⟨by decide, by decide, by decide, rfl⟩,
    c8_accessor_debug_assertions smallRef smallQry 2 0 0 smallTable
      (by decide) (by decide) (by decide) rfl⟩

theorem complement_complement (x : DnaChar) : x.complement.complement = x := by
  cases x <;> rfl

theorem reverseComplement_involutive (s : List DnaChar) :
    reverseComplement (reverseComplement s) = s := by
  unfold reverseComplement
  rw [← List.map_reverse, List.reverse_reverse, List.map_map]
  have hc : DnaChar.complement ∘ DnaChar.complement = id := by
    funext x
    exact complement_complement x
  rw [hc, List.map_id]

theorem rc_eq_iff (a b : List DnaChar) :
    a = b ↔ reverseComplement a = reverseComplement b := by
  constructor
  · intro h
    rw [h]
  · intro h
    have h2 := congrArg reverseComplement h
    rwa [reverseComplement_involutive, reverseComplement_involutive] at h2

theorem reverseComplement_segment (X : List DnaChar) (p L : Nat)
    (h : p + L ≤ X.length) :
    reverseComplement ((X.drop p).take L) =
      ((reverseComplement X).drop (X.length - p - L)).take L := by
  unfold reverseComplement
  rw [← List.map_drop, ← List.map_take]
  congr 1
  rw [List.reverse_take, List.reverse_drop, List.drop_take, List.length_drop]
  congr 1
  omega

theorem kmer_reversal_iff (X Y : List DnaChar) (L p s : Nat)
    (hpX : p + L ≤ X.length) (hsY : s + L ≤ Y.length) :
    ((X.drop p).take L = ((reverseComplement Y).drop s).take L) ↔
      ((Y.drop (Y.length - L - s)).take L =
        ((reverseComplement X).drop (X.length - L - p)).take L) := by
  rw [rc_eq_iff, reverseComplement_segment X p L hpX,
    reverseComplement_segment (reverseComplement Y) s L
      (by rw [reverseComplement_length]; exact hsY),
    reverseComplement_involutive, reverseComplement_length]
  have e1 : X.length - p - L = X.length - L - p := by omega
  have e2 : Y.length - s - L = Y.length - L - s := by omega
  rw [e1, e2]
  exact eq_comm

/-- Claim C9: cross-relation reversal symmetry.  Under the construction
precondition, for in-range p and s, the reference-query accessor at
(p, s) agrees with the query-reference accessor at the mirrored indices
(query_kmer_count - 1 - s, reference_kmer_count - 1 - p): a forward kmer
of the reference equals a reverse-complement kmer of the query exactly
when the mirrored forward kmer of the query equals the mirrored
reverse-complement kmer of the reference. -/
theorem c9_cross_relation_reversal (R Q : List DnaChar) (L p s : Nat)
    (t : MatchTable) (h1 : 1 ≤ L) (hR : L ≤ R.length) (hQ : L ≤ Q.length)
    (ht : MatchTable.new R Q L = Except.ok t)
    (hp : p < t.reference_kmer_count) (hs : s < t.query_kmer_count) :
    t.has_reference_query_match p s =
      t.has_query_reference_match (t.query_kmer_count - 1 - s)
        (t.reference_kmer_count - 1 - p) := by
  have hbuild := new_eq_build R Q L h1 hR hQ
  rw [ht] at hbuild
  injection hbuild with htb
  subst htb
  have hp' : p < R.length - L + 1 := hp
  have hs' : s < Q.length - L + 1 := hs
  rw [build_query_kmer_count, build_reference_kmer_count]
  have e1 : Q.length - L + 1 - 1 - s = Q.length - L - s := by omega
  have e2 : R.length - L + 1 - 1 - p = R.length - L - p := by omega
  rw [e1, e2]
  have hiff : ((MatchTable.build R Q L).has_reference_query_match p s = some true) ↔
      ((MatchTable.build R Q L).has_query_reference_match (Q.length - L - s)
        (R.length - L - p) = some true) := by
    rw [build_rq_iff R Q L p s h1 hR hQ hp' hs',
      build_qr_iff R Q L (Q.length - L - s) (R.length - L - p) h1 hR hQ
        (by omega) (by omega)]
    exact kmer_reversal_iff R Q L p s (by omega) (by omega)
  have hsome1 : ∃ b,
      (MatchTable.build R Q L).has_reference_query_match p s = some b := by
    rw [MatchTable.has_reference_query_match]
    have hlt : p * (MatchTable.build R Q L).query_kmer_count + s <
        (MatchTable.build R Q L).reference_query.length := by
      rw [build_query_kmer_count, (build_lengths R Q L).2.1]
      exact flat_lt p s _ _ hp' hs'
    exact ⟨_, List.getElem?_eq_getElem hlt⟩
  have hsome2 : ∃ b,
      (MatchTable.build R Q L).has_query_reference_match (Q.length - L - s)
        (R.length - L - p) = some b := by
    rw [MatchTable.has_query_reference_match]
    have hlt : (Q.length - L - s) * (MatchTable.build R Q L).reference_kmer_count +
        (R.length - L - p) < (MatchTable.build R Q L).query_reference.length := by
      rw [build_reference_kmer_count, (build_lengths R Q L).2.2.1]
      exact flat_lt (Q.length - L - s) (R.length - L - p) _ _ (by omega) (by omega)
    exact ⟨_, List.getElem?_eq_getElem hlt⟩
  rcases hsome1 with ⟨b1, hb1⟩
  rcases hsome2 with ⟨b2, hb2⟩
  rw [hb1, hb2]
  rw [hb1, hb2] at hiff
  have hbb : b1 = b2 := by
    cases b1 <;> cases b2 <;> simp_all
  rw [hbb]

/-- Witness for c9_cross_relation_reversal at the tiny concrete input. -/
theorem c9_cross_relation_reversal_witness :
    (1 ≤ 2 ∧ 2 ≤ smallRef.length ∧ 2 ≤ smallQry.length ∧
      MatchTable.new smallRef smallQry 2 = Except.ok smallTable ∧
      0 < smallTable.reference_kmer_count ∧ 0 < smallTable.query_kmer_count) ∧
    smallTable.has_reference_query_match 0 0 =
      smallTable.has_query_reference_match (smallTable.query_kmer_count - 1 - 0)
        (smallTable.reference_kmer_count - 1 - 0) :=
  ⟨⟨by decide, by decide, by decide, rfl, by decide, by decide⟩,
    c9_cross_relation_reversal smallRef smallQry 2 0 0 smallTable
      (by decide) (by decide) (by decide) rfl (by decide) (by decide)⟩

/-- Claim C10: with debug assertions disabled, an out-of-range secondary
index does not fail but aliases a different index pair: reading the
reference-query relation at secondary index query_kmer_count + u
returns the stored bit of the pair (p + 1, u), because the accessor
computes the flat address primary * query_kmer_count + secondary
without a per-dimension bound check. -/
theorem c10_release_index_aliasing (R Q : List DnaChar) (L p u : Nat)
    (t : MatchTable) (h1 : 1 ≤ L) (hR : L ≤ R.length) (hQ : L ≤ Q.length)
    (ht : MatchTable.new R Q L = Except.ok t)
    (hp : p + 2 ≤ t.reference_kmer_count) (hu : u < t.query_kmer_count) :
    t.has_reference_query_match p (t.query_kmer_count + u) =
        t.has_reference_query_match (p + 1) u ∧
      ∃ b, t.has_reference_query_match p (t.query_kmer_count + u) = some b := by
  have heq : p * t.query_kmer_count + (t.query_kmer_count + u) =
      (p + 1) * t.query_kmer_count + u := by ring
  have halias : t.has_reference_query_match p (t.query_kmer_count + u) =
      t.has_reference_query_match (p + 1) u := by
    rw [MatchTable.has_reference_query_match, MatchTable.has_reference_query_match,
      heq]
  refine ⟨halias, ?_⟩
  rw [halias]
  have hbuild := new_eq_build R Q L h1 hR hQ
  rw [ht] at hbuild
  injection hbuild with htb
  subst htb
  have hp' : p + 2 ≤ R.length - L + 1 := hp
  have hu' : u < Q.length - L + 1 := hu
  rw [MatchTable.has_reference_query_match]
  have hlt : (p + 1) * (MatchTable.build R Q L).query_kmer_count + u <
      (MatchTable.build R Q L).reference_query.length := by
    rw [build_query_kmer_count, (build_lengths R Q L).2.1]
    exact flat_lt (p + 1) u _ _ (by omega) hu'
  exact ⟨_, List.getElem?_eq_getElem hlt⟩

/-- The reference AAA of the aliasing witness input. -/
def aliasRef : List DnaChar := [DnaChar.A, DnaChar.A, DnaChar.A]

/-- The query AA of the aliasing witness input. -/
def aliasQry : List DnaChar := [DnaChar.A, DnaChar.A]

/-- The table MatchTable::new returns on the aliasing witness input. -/
def aliasTable : MatchTable :=
  ⟨[false, false, false, false], [false, false], [false, false], [false], 2, 1⟩

/-- Witness for c10_release_index_aliasing at a concrete input. -/
theorem c10_release_index_aliasing_witness :
    (1 ≤ 2 ∧ 2 ≤ aliasRef.length ∧ 2 ≤ aliasQry.length ∧
      MatchTable.new aliasRef aliasQry 2 = Except.ok aliasTable ∧
      0 + 2 ≤ aliasTable.reference_kmer_count ∧
      0 < aliasTable.query_kmer_count) ∧
    (aliasTable.has_reference_query_match 0 (aliasTable.query_kmer_count + 0) =
        aliasTable.has_reference_query_match (0 + 1) 0 ∧
      ∃ b, aliasTable.has_reference_query_match 0
        (aliasTable.query_kmer_count + 0) = some b) :=
  ⟨⟨by decide, by decide, by decide, rfl, by decide, by decide⟩,
    c10_release_index_aliasing aliasRef aliasQry 2 0 0 aliasTable
      (by decide) (by decide) (by decide) rfl (by decide) (by decide)⟩

theorem newOnWord_eq_build (w : Nat) (R Q : List DnaChar) (L : Nat)
    (h1 : 0 < L) (hR : L ≤ R.length) (hQ : L ≤ Q.length)
    (hrr : (R.length - L + 1) * (R.length - L + 1) < 2 ^ w)
    (hrq : (R.length - L + 1) * (Q.length - L + 1) < 2 ^ w)
    (hqr : (Q.length - L + 1) * (R.length - L + 1) < 2 ^ w)
    (hqq : (Q.length - L + 1) * (Q.length - L + 1) < 2 ^ w) :
    MatchTable.newOnWord w R Q L = Except.ok (MatchTable.build R Q L) := by
  have hsubR : usizeSub R.length L = Except.ok (R.length - L) := by
    rw [usizeSub, if_pos hR]
  have hsubQ : usizeSub Q.length L = Except.ok (Q.length - L) := by
    rw [usizeSub, if_pos hQ]
  have hmrr : usizeMul w (R.length - L + 1) (R.length - L + 1) =
      Except.ok ((R.length - L + 1) * (R.length - L + 1)) := by
    rw [usizeMul, if_pos hrr]
  have hmrq : usizeMul w (R.length - L + 1) (Q.length - L + 1) =
      Except.ok ((R.length - L + 1) * (Q.length - L + 1)) := by
    rw [usizeMul, if_pos hrq]
  have hmqr : usizeMul w (Q.length - L + 1) (R.length - L + 1) =
      Except.ok ((Q.length - L + 1) * (R.length - L + 1)) := by
    rw [usizeMul, if_pos hqr]
  have hmqq : usizeMul w (Q.length - L + 1) (Q.length - L + 1) =
      Except.ok ((Q.length - L + 1) * (Q.length - L + 1)) := by
    rw [usizeMul, if_pos hqq]
  have hloop1 := loopPair_eq R Q (reverseComplement R) L (R.length - L + 1)
    (R.length - L + 1)
    (List.replicate ((R.length - L + 1) * (R.length - L + 1)) false)
    (List.replicate ((Q.length - L + 1) * (R.length - L + 1)) false)
    (fun j hj => by rw [reverseComplement_length]; omega)
    (fun j hj p hp => by
      rw [List.length_replicate]
      exact positions_flat_lt R (reverseComplement R) L j (R.length - L + 1)
        (R.length - L + 1) (le_refl _) hj
        (by rw [reverseComplement_length]; omega) p hp)
    (fun j hj p hp => by
      rw [List.length_replicate]
      exact positions_flat_lt Q (reverseComplement R) L j (R.length - L + 1)
        (Q.length - L + 1) (le_refl _) hj
        (by rw [reverseComplement_length]; omega) p hp)
  have hloop2 := loopPair_eq R Q (reverseComplement Q) L (Q.length - L + 1)
    (Q.length - L + 1)
    (List.replicate ((R.length - L + 1) * (Q.length - L + 1)) false)
    (List.replicate ((Q.length - L + 1) * (Q.length - L + 1)) false)
    (fun j hj => by rw [reverseComplement_length]; omega)
    (fun j hj p hp => by
      rw [List.length_replicate]
      exact positions_flat_lt R (reverseComplement Q) L j (Q.length - L + 1)
        (R.length - L + 1) (le_refl _) hj
        (by rw [reverseComplement_length]; omega) p hp)
    (fun j hj p hp => by
      rw [List.length_replicate]
      exact positions_flat_lt Q (reverseComplement Q) L j (Q.length - L + 1)
        (Q.length - L + 1) (le_refl _) hj
        (by rw [reverseComplement_length]; omega) p hp)
  rw [MatchTable.newOnWord, if_pos h1]
  simp only [hsubR, hsubQ, exceptBind_ok, hmrr, hmrq, hmqr, hmqq]
  rw [hloop1, exceptBind_ok, hloop2, exceptBind_ok]
  rfl

theorem newOnWord_overflow (w : Nat) (R Q : List DnaChar) (L : Nat)
    (h1 : 0 < L) (hR : L ≤ R.length) (hQ : L ≤ Q.length)
    (hover : ¬ (R.length - L + 1) * (R.length - L + 1) < 2 ^ w) :
    MatchTable.newOnWord w R Q L = Except.error BuildError.usizeMulOverflow := by
  have hsubR : usizeSub R.length L = Except.ok (R.length - L) := by
    rw [usizeSub, if_pos hR]
  have hsubQ : usizeSub Q.length L = Except.ok (Q.length - L) := by
    rw [usizeSub, if_pos hQ]
  have hmul : usizeMul w (R.length - L + 1) (R.length - L + 1) =
      Except.error BuildError.usizeMulOverflow := by
    rw [usizeMul, if_neg hover]
  rw [MatchTable.newOnWord, if_pos h1]
  simp only [hsubR, hsubQ, exceptBind_ok]
  rw [hmul]
  rfl

/-- Counterexample to claim C7 as stated: on a target with 32-bit usize,
the input of two length-66000 sequences with minimum length 4 satisfies
the construction precondition, yet the usize product sizing the first
bit matrix overflows (65997 * 65997 exceeds 2 ^ 32) and construction
fails (a multiply overflow panic in debug builds, a wrapped undersized
bitvector in release builds). -/
theorem c7_no_failure_counterexample :
    1 ≤ 4 ∧ 4 ≤ (List.replicate 66000 DnaChar.A).length ∧
      MatchTable.newOnWord 32 (List.replicate 66000 DnaChar.A)
          (List.replicate 66000 DnaChar.A) 4 =
        Except.error BuildError.usizeMulOverflow := by
  refine ⟨by decide, ?_, ?_⟩
  · rw [List.length_replicate]
    decide
  · apply newOnWord_overflow
    · decide
    · rw [List.length_replicate]
      decide
    · rw [List.length_replicate]
      decide
    · rw [List.length_replicate]
      decide

/-- Claim C7 as amended: under the precondition 1 <= L <= min of the
lengths, and provided each of the four bit-matrix sizes fits in the
usize word of the target, MatchTable::new has no failure mode: it
returns a table, with every substring extraction, offset lookup and bit
write in range (none of the modelled panic or error branches is
taken). -/
theorem c7_no_failure_when_sizes_fit (w : Nat) (R Q : List DnaChar) (L : Nat)
    (h1 : 1 ≤ L) (hR : L ≤ R.length) (hQ : L ≤ Q.length)
    (hrr : (R.length - L + 1) * (R.length - L + 1) < 2 ^ w)
    (hrq : (R.length - L + 1) * (Q.length - L + 1) < 2 ^ w)
    (hqr : (Q.length - L + 1) * (R.length - L + 1) < 2 ^ w)
    (hqq : (Q.length - L + 1) * (Q.length - L + 1) < 2 ^ w) :
    ∃ t, MatchTable.newOnWord w R Q L = Except.ok t :=
  ⟨MatchTable.build R Q L,
    newOnWord_eq_build w R Q L h1 hR hQ hrr hrq hqr hqq⟩

/-- Witness for c7_no_failure_when_sizes_fit at a concrete input. -/
theorem c7_no_failure_when_sizes_fit_witness :
    (1 ≤ 2 ∧ 2 ≤ smallRef.length ∧ 2 ≤ smallQry.length ∧
      (smallRef.length - 2 + 1) * (smallRef.length - 2 + 1) < 2 ^ 32 ∧
      (smallRef.length - 2 + 1) * (smallQry.length - 2 + 1) < 2 ^ 32 ∧
      (smallQry.length - 2 + 1) * (smallRef.length - 2 + 1) < 2 ^ 32 ∧
      (smallQry.length - 2 + 1) * (smallQry.length - 2 + 1) < 2 ^ 32) ∧
      ∃ t, MatchTable.newOnWord 32 smallRef smallQry 2 = Except.ok t :=
  ⟨⟨by decide, by decide, by decide, by decide, by decide, by decide, by decide⟩,
    c7_no_failure_when_sizes_fit 32 smallRef smallQry 2 (by decide) (by decide)
      (by decide) (by decide) (by decide) (by decide) (by decide)⟩
